import Mathlib

/-!
Verification of `ConvertTextNHKNews.py`: a shallow embedding of the script's
pure logic (punctuation line breaking, ranking-URL filtering and
deduplication, article parsing, dictionary accumulation, exclusive-create
file writing, and the top-level try/except/finally orchestration), together
with theorems settling the specification's claims about it.
-/

namespace NHKNews

/-! ## Constants (lines 15-28 of the source) -/

def NHK_BASE_URL : String := "https://www3.nhk.or.jp"

def NOT_INTEREST_WORDS : List String := [("駅伝")]

def OUTPUT_BASE_DIRECTORY : String := "outputs/"

/-! ## Punctuation-based line breaking (`convert_punctuation`, line 33-34)

`re.sub('([、。])', '\\1\n', value)` inserts a newline after every
full-width comma or period.  We model strings as `List Char`. -/

def isPunct (c : Char) : Bool := (c == '、') || (c == '。')

def convert_punctuation : List Char → List Char
  | [] => []
  | c :: rest =>
    if isPunct c then c :: '\n' :: convert_punctuation rest
    else c :: convert_punctuation rest

/-- String-level wrapper of `convert_punctuation`. -/
def convert_punctuation_str (s : String) : String :=
  String.mk (convert_punctuation s.data)

/-- `true` iff every full-width comma/period in the list is immediately
followed by a newline character. -/
def followedByNewline : List Char → Bool
  | [] => true
  | [c] => !(isPunct c)
  | c :: d :: rest => (!(isPunct c) || (d == '\n')) && followedByNewline (d :: rest)

/-- Remove the newline inserted after each full-width comma/period
(inverse of the insertion performed by `convert_punctuation`). -/
def strip_inserted : List Char → List Char
  | [] => []
  | [c] => [c]
  | c :: d :: rest =>
    if isPunct c && (d == '\n') then c :: strip_inserted rest
    else c :: strip_inserted (d :: rest)

theorem followedByNewline_cons (c : Char) (l : List Char) (h : isPunct c = false) :
    followedByNewline (c :: l) = followedByNewline l := by
  cases l with
  | nil => simp [followedByNewline, h]
  | cons d rest => simp [followedByNewline, h]

theorem followedByNewline_convert (s : List Char) :
    followedByNewline (convert_punctuation s) = true := by
  induction s with
  | nil => rfl
  | cons c rest ih =>
    by_cases h : isPunct c = true
    · rw [convert_punctuation, if_pos h]
      have h1 : followedByNewline (c :: '\n' :: convert_punctuation rest)
          = followedByNewline ('\n' :: convert_punctuation rest) := by
        simp [followedByNewline]
      rw [h1, followedByNewline_cons _ _ (rfl : isPunct '\n' = false)]
      exact ih
    · have h' : isPunct c = false := by simpa using h
      rw [convert_punctuation]
      rw [if_neg (by simp [h'])]
      rw [followedByNewline_cons c _ h']
      exact ih

theorem convert_punctuation_ne_nil (c : Char) (rest : List Char) :
    convert_punctuation (c :: rest) ≠ [] := by
  by_cases h : isPunct c = true <;> simp [convert_punctuation, h]

theorem strip_inserted_convert (s : List Char) :
    strip_inserted (convert_punctuation s) = s := by
  induction s with
  | nil => rfl
  | cons c rest ih =>
    by_cases h : isPunct c = true
    · simp [convert_punctuation, h, strip_inserted, ih]
    · have h' : isPunct c = false := by simpa using h
      cases hr : convert_punctuation rest with
      | nil =>
        have hrest : rest = [] := by
          cases rest with
          | nil => rfl
          | cons d t => exact absurd hr (convert_punctuation_ne_nil d t)
        subst hrest
        simp [convert_punctuation, h', strip_inserted]
      | cons d t =>
        rw [convert_punctuation]
        rw [if_neg (by simp [h'])]
        rw [hr, strip_inserted]
        rw [if_neg (by simp [h'])]
        rw [← hr, ih]

theorem count_convert (s : List Char) (a : Char) (h : (a == '\n') = false) :
    (convert_punctuation s).count a = s.count a := by
  induction s with
  | nil => rfl
  | cons c rest ih =>
    by_cases hc : isPunct c = true
    · have h2 : ¬ (('\n' : Char) = a) := by
        intro e; subst e; simp at h
      simp [convert_punctuation, hc, List.count_cons, ih, h2]
    · simp [convert_punctuation, hc, List.count_cons, ih]

/-- C1: `convert_punctuation` puts a newline right after every full-width
comma/period, removes no punctuation (the counts of 、 and 。 are
preserved), stripping the inserted newlines restores the input exactly,
and the concrete example from the specification evaluates as stated. -/
theorem convert_punctuation_correct (s : List Char) :
    followedByNewline (convert_punctuation s) = true
    ∧ (convert_punctuation s).count ('、') = s.count ('、')
    ∧ (convert_punctuation s).count ('。') = s.count ('。')
    ∧ strip_inserted (convert_punctuation s) = s
    ∧ convert_punctuation (("今日は晴れです。明日は雨です、注意。").data)
        = ("今日は晴れです。\n明日は雨です、\n注意。\n").data :=
  ⟨followedByNewline_convert s, count_convert s _ rfl, count_convert s _ rfl,
   strip_inserted_convert s, by decide⟩

/-! ## Ranking anchors and the keyword filter (lines 45-86)

An anchor is modelled by the text of its first `em` descendant
(`none` when the anchor has no `em` element, in which case Python's
`anchor.find("em").text` raises `AttributeError`) and its `href`. -/

structure Anchor where
  em : Option String
  href : String
  deriving DecidableEq

/-- Python's substring test `w in s`. -/
def containsWord (w s : String) : Bool :=
  s.data.tails.any (fun suf => w.data.isPrefixOf suf)

/-- `is_include_not_interest` (lines 46-47): `none` models the
`AttributeError` raised when the anchor has no `em` descendant. -/
def is_include_not_interest (anchor : Anchor) : Option Bool :=
  anchor.em.map (fun t => NOT_INTEREST_WORDS.any (fun w => containsWord w t))

/-- `itertools.filterfalse(is_include_not_interest, ·)` consumed by `list`:
keeps the anchors for which the predicate is `false`, propagating the
`AttributeError` of an `em`-less anchor as `none`. -/
def filterAnchors : List Anchor → Option (List Anchor)
  | [] => some []
  | a :: rest =>
    match is_include_not_interest a with
    | none => none
    | some b => (filterAnchors rest).map (fun r => if b then r else a :: r)

def urlOf (a : Anchor) : String := NHK_BASE_URL ++ a.href

/-- The pure part of `get_urls` (lines 75-86): map the accepted anchors of
both rankings to absolute URLs and build the union set (modelled as a
duplicate-free list). -/
def get_urls (access social : List Anchor) : Option (List String) :=
  match filterAnchors access, filterAnchors social with
  | some fa, some fb => some ((fa.map urlOf ++ fb.map urlOf).dedup)
  | _, _ => none

theorem mem_filterAnchors {l fl : List Anchor} (h : filterAnchors l = some fl)
    (a : Anchor) :
    a ∈ fl ↔ a ∈ l ∧ is_include_not_interest a = some false := by
  induction l generalizing fl with
  | nil =>
    simp [filterAnchors] at h
    subst h
    simp
  | cons x rest ih =>
    rw [filterAnchors] at h
    cases hx : is_include_not_interest x with
    | none => rw [hx] at h; cases h
    | some b =>
      rw [hx] at h
      cases hr : filterAnchors rest with
      | none => rw [hr] at h; cases h
      | some fr =>
        rw [hr] at h
        simp at h
        cases b with
        | true =>
          subst h
          rw [if_pos rfl]
          rw [ih hr]
          constructor
          · exact fun hp => ⟨List.mem_cons_of_mem _ hp.1, hp.2⟩
          · rintro ⟨hm, hf⟩
            rcases List.mem_cons.mp hm with he | hm'
            · subst he; rw [hx] at hf; cases hf
            · exact ⟨hm', hf⟩
        | false =>
          subst h
          rw [if_neg (by simp)]
          constructor
          · intro hm
            rcases List.mem_cons.mp hm with he | hm'
            · subst he; exact ⟨List.mem_cons_self _ _, hx⟩
            · rcases (ih hr).mp hm' with ⟨hm'', hf⟩
              exact ⟨List.mem_cons_of_mem _ hm'', hf⟩
          · rintro ⟨hm, hf⟩
            rcases List.mem_cons.mp hm with he | hm'
            · subst he; exact List.mem_cons_self _ _
            · exact List.mem_cons_of_mem _ ((ih hr).mpr ⟨hm', hf⟩)

theorem mem_get_urls {access social : List Anchor} {r : List String}
    (h : get_urls access social = some r) (u : String) :
    u ∈ r ↔ ∃ b, (b ∈ access ∨ b ∈ social)
      ∧ is_include_not_interest b = some false ∧ u = urlOf b := by
  rw [get_urls] at h
  cases ha : filterAnchors access with
  | none => rw [ha] at h; cases h
  | some fa =>
    cases hs : filterAnchors social with
    | none => rw [ha, hs] at h; cases h
    | some fb =>
      rw [ha, hs] at h
      simp only [Option.some.injEq] at h
      subst h
      rw [List.mem_dedup, List.mem_append, List.mem_map, List.mem_map]
      constructor
      · rintro (⟨b, hb, he⟩ | ⟨b, hb, he⟩)
        · rcases (mem_filterAnchors ha b).mp hb with ⟨hm, hf⟩
          exact ⟨b, Or.inl hm, hf, he.symm⟩
        · rcases (mem_filterAnchors hs b).mp hb with ⟨hm, hf⟩
          exact ⟨b, Or.inr hm, hf, he.symm⟩
      · rintro ⟨b, hm | hm, hf, he⟩
        · exact Or.inl ⟨b, (mem_filterAnchors ha b).mpr ⟨hm, hf⟩, he.symm⟩
        · exact Or.inr ⟨b, (mem_filterAnchors hs b).mpr ⟨hm, hf⟩, he.symm⟩

theorem nodup_get_urls {access social : List Anchor} {r : List String}
    (h : get_urls access social = some r) : r.Nodup := by
  rw [get_urls] at h
  cases ha : filterAnchors access with
  | none => rw [ha] at h; cases h
  | some fa =>
    cases hs : filterAnchors social with
    | none => rw [ha, hs] at h; cases h
    | some fb =>
      rw [ha, hs] at h
      simp only [Option.some.injEq] at h
      subst h
      exact List.nodup_dedup _

def anchorEkiden : Anchor := ⟨some ("駅伝"), ("/a/1.html")⟩

def anchorOther : Anchor := ⟨some ("スケート"), ("/a/1.html")⟩

/-- C2 counterexample: an anchor whose `em` text contains the configured
keyword 駅伝 shares its href with an accepted anchor; its URL is then a
member of the result of `get_urls`, so the claim as stated fails. -/
theorem get_urls_keyword_excluded_ce :
    is_include_not_interest anchorEkiden = some true
    ∧ get_urls [anchorEkiden, anchorOther] [] = some [("https://www3.nhk.or.jp/a/1.html")]
    ∧ urlOf anchorEkiden ∈ [("https://www3.nhk.or.jp/a/1.html")] := by decide

/-- C2 (amended): an anchor whose `em` text contains a configured
not-interesting keyword contributes no URL of its own, so its URL is
excluded from the result of `get_urls` provided no accepted anchor has the
same href. -/
theorem get_urls_excludes_keyword (access social : List Anchor) (a : Anchor)
    (t w : String) (r : List String)
    (ha : a ∈ access ∨ a ∈ social)
    (hem : a.em = some t)
    (hw : w ∈ NOT_INTEREST_WORDS)
    (hsub : containsWord w t = true)
    (hres : get_urls access social = some r)
    (hdist : ∀ b, (b ∈ access ∨ b ∈ social) →
        is_include_not_interest b = some false → urlOf b ≠ urlOf a) :
    urlOf a ∉ r := by
  intro hmem
  rcases (mem_get_urls hres _).mp hmem with ⟨b, hb, hf, he⟩
  exact hdist b hb hf he.symm

def anchorSkate : Anchor := ⟨some ("speed-skating"), ("/a/1.html")⟩

def anchorEkidenRace : Anchor := ⟨some ("ekiden race (駅伝)"), ("/a/2.html")⟩

theorem get_urls_excludes_keyword_witness :
    urlOf anchorEkidenRace ∉ [("https://www3.nhk.or.jp/a/1.html")] :=
  get_urls_excludes_keyword [anchorSkate, anchorEkidenRace] [] anchorEkidenRace
    ("ekiden race (駅伝)") ("駅伝") [("https://www3.nhk.or.jp/a/1.html")]
    (Or.inl (by decide)) rfl (by decide) (by decide) (by decide)
    (by
      intro b hb hf
      rcases hb with hb | hb
      · rcases List.mem_cons.mp hb with he1 | hb2
        · subst he1; decide
        · rcases List.mem_cons.mp hb2 with he2 | hb3
          · subst he2; exact absurd hf (by decide)
          · exact absurd hb3 (List.not_mem_nil b)
      · exact absurd hb (List.not_mem_nil b))

/-- C3: every anchor accepted by the keyword filter contributes the URL
`NHK_BASE_URL ++ href` to the result of `get_urls`, and that URL occurs in
the result exactly once (set-union deduplication), even when the anchor
appears in both rankings. -/
theorem get_urls_base_concat_unique (access social : List Anchor) (a : Anchor)
    (r : List String) (hres : get_urls access social = some r)
    (ha : a ∈ access ∨ a ∈ social)
    (hacc : is_include_not_interest a = some false) :
    urlOf a = NHK_BASE_URL ++ a.href ∧ urlOf a ∈ r ∧ r.count (urlOf a) = 1 := by
  have hmem : urlOf a ∈ r := (mem_get_urls hres _).mpr ⟨a, ha, hacc, rfl⟩
  exact ⟨rfl, hmem, List.count_eq_one_of_mem (nodup_get_urls hres) hmem⟩

def anchorW : Anchor := ⟨some ("スケート"), ("/b/9.html")⟩

theorem get_urls_base_concat_unique_witness :
    urlOf anchorW = NHK_BASE_URL ++ anchorW.href
    ∧ urlOf anchorW ∈ [("https://www3.nhk.or.jp/b/9.html")]
    ∧ List.count (urlOf anchorW) [("https://www3.nhk.or.jp/b/9.html")] = 1 :=
  get_urls_base_concat_unique [anchorW] [anchorW] anchorW
    [("https://www3.nhk.or.jp/b/9.html")] (by decide) (Or.inl (by decide)) (by decide)

/-! ## The article-page wait condition (lines 99-109)

`wait.until(EC.presence_of_element_located(...) and (... or ...))` applies
Python's `and`/`or` to expected-condition objects.  Such objects are always
truthy, so `x and y` evaluates to `y` and `x or y` evaluates to `x`: the
expression passed to `wait.until` is a single condition, not a
conjunction. -/

inductive ECond
  | presenceTag (name : String)
  | presenceClass (name : String)
  deriving DecidableEq

/-- Python `and` on two (always truthy) expected-condition objects. -/
def pyAnd (x y : ECond) : ECond := y

/-- Python `or` on two (always truthy) expected-condition objects. -/
def pyOr (x y : ECond) : ECond := x

/-- The argument of `wait.until` in `get_article` (lines 102-109). -/
def article_wait_condition : ECond :=
  pyAnd (ECond.presenceTag ("h1"))
    (pyOr (ECond.presenceClass ("content--summary"))
      (ECond.presenceClass ("body-title")))

/-- Which of the three relevant elements are present on the page. -/
structure PageState where
  hasH1 : Bool
  hasSummary : Bool
  hasBodyTitle : Bool
  deriving DecidableEq

/-- Whether an expected condition holds in a given page state. -/
def condHolds (c : ECond) (p : PageState) : Bool :=
  match c with
  | ECond.presenceTag n => if n = ("h1") then p.hasH1 else false
  | ECond.presenceClass n =>
    if n = ("content--summary") then p.hasSummary
    else if n = ("body-title") then p.hasBodyTitle
    else false

/-- Modelled from the spec: the wait condition the specification describes
for `get_article` — a title element AND (a summary element OR a
body-heading element). -/
def spec_wait_condition (p : PageState) : Bool :=
  p.hasH1 && (p.hasSummary || p.hasBodyTitle)

/-- C5: what `wait.until` actually receives is the single condition
`presence_of_element_located((By.CLASS_NAME, "content--summary"))` —
Python's `and`/`or` on truthy condition objects selects one operand — so
the wait succeeds exactly when a summary element is present, which differs
from the claimed conjunction on a page that has a title and a body heading
but no summary. -/
theorem article_wait_condition_bug :
    article_wait_condition = ECond.presenceClass ("content--summary")
    ∧ (∀ p, condHolds article_wait_condition p = p.hasSummary)
    ∧ condHolds article_wait_condition ⟨true, false, true⟩ = false
    ∧ spec_wait_condition ⟨true, false, true⟩ = true :=
  ⟨rfl, fun p => rfl, rfl, rfl⟩

/-! ## Article extraction (`get_article`, lines 89-141) -/

inductive PyErr
  | timeoutError
  | attributeError
  | nameError
  | connectionError
  deriving DecidableEq

/-- A document element carrying its class list and its text. -/
structure BodyElem where
  cls : List String
  text : String
  deriving DecidableEq

/-- `soup.find_all(class_=["body-title", "body-text"])`: keeps the elements
having at least one of the two classes. -/
def selectBodies (els : List BodyElem) : List BodyElem :=
  els.filter (fun e => e.cls.contains ("body-title") || e.cls.contains ("body-text"))

/-- The `match detail_content['class']` statement (lines 135-139): each of
the two cases matches only the exact singleton class list; a selected
element matching neither case is silently skipped. -/
def matchBody (e : BodyElem) : List String :=
  if e.cls = [("body-title")] then [convert_punctuation_str e.text]
  else if e.cls = [("body-text")] then [convert_punctuation_str e.text]
  else []

/-- Uniform processing of a selected body element (what both match cases
do): append its punctuation-broken text. -/
def uniformBody (e : BodyElem) : List String := [convert_punctuation_str e.text]

/-- The rendered article page: the text of the first `h1` (when present),
the texts of the summary elements, and all elements of the document that
carry class data (from which the body elements are selected). -/
structure ArticlePage where
  h1Text : Option String
  summaries : List String
  bodies : List BodyElem
  deriving DecidableEq

/-- Outcome of waiting on an article page: the wait either times out or the
rendered page is available. -/
inductive FetchOutcome
  | timeout
  | loaded (page : ArticlePage)
  deriving DecidableEq

/-- `re.sub('\n', '', title)`. -/
def removeNewlines (s : String) : String :=
  String.mk (s.data.filter (fun c => !(c == '\n')))

/-- `get_article` (lines 89-141): on timeout returns the empty list `[]`;
otherwise builds the context lines and returns the one-entry dictionary
keyed by the newline-stripped title.  Accessing the text of a missing `h1`
raises `AttributeError`. -/
def get_article (outcome : FetchOutcome) : Except PyErr (List (String × String)) :=
  match outcome with
  | FetchOutcome.timeout => Except.ok []
  | FetchOutcome.loaded page =>
    match page.h1Text with
    | none => Except.error PyErr.attributeError
    | some t =>
      let title := removeNewlines t
      let contexts :=
        [("~~タイトル~~"), title, ("~~要約~~")]
        ++ page.summaries.map convert_punctuation_str
        ++ [("~~内容~~")]
        ++ (selectBodies page.bodies).flatMap matchBody
      Except.ok [(title, String.intercalate ("\n") contexts)]

/-! ## Dictionary accumulation (`news_dicts.update(...)`, lines 184-186) -/

/-- Store a value under a key in a Python dict modelled as an ordered
association list: an existing key keeps its position and gets the new
value, a new key is appended at the end. -/
def setKey : List (String × String) → String → String → List (String × String)
  | [], k, v => [(k, v)]
  | (k', v') :: rest, k, v =>
    if k' = k then (k, v) :: rest else (k', v') :: setKey rest k v

/-- Python `dict.update` with an iterable of pairs. -/
def updateDict (d new : List (String × String)) : List (String × String) :=
  new.foldl (fun acc p => setKey acc p.1 p.2) d

/-- Lookup in the dict model. -/
def lookupKey (d : List (String × String)) (k : String) : Option String :=
  (d.find? (fun p => p.1 = k)).map (fun p => p.2)

def keysOf (d : List (String × String)) : List String := d.map (fun p => p.1)

/-- The per-URL pipeline loop (lines 184-186): fetch each URL's article and
merge the result into the accumulated dictionary; an exception raised by
`get_article` propagates. -/
def articleLoop (art : String → FetchOutcome) :
    List (String × String) → List String → Except PyErr (List (String × String))
  | d, [] => Except.ok d
  | d, u :: rest =>
    match get_article (art u) with
    | Except.error e => Except.error e
    | Except.ok r => articleLoop art (updateDict d r) rest

/-- C4: when the article-page wait times out, `get_article` returns the
empty result with no exception, and the pipeline loop carries on with the
remaining URLs, its accumulated dictionary unchanged — the article is
skipped with no retry. -/
theorem get_article_timeout_skip (art : String → FetchOutcome)
    (d : List (String × String)) (u : String) (rest : List String)
    (h : art u = FetchOutcome.timeout) :
    get_article (art u) = Except.ok []
    ∧ articleLoop art d (u :: rest) = articleLoop art d rest := by
  constructor
  · rw [h]
    rfl
  · rw [articleLoop, h]
    rfl

theorem get_article_timeout_skip_witness :
    get_article ((fun _ => FetchOutcome.timeout) ("https://www3.nhk.or.jp/a/1.html"))
      = Except.ok []
    ∧ articleLoop (fun _ => FetchOutcome.timeout) []
        [("https://www3.nhk.or.jp/a/1.html"), ("https://www3.nhk.or.jp/a/2.html")]
      = articleLoop (fun _ => FetchOutcome.timeout) [] [("https://www3.nhk.or.jp/a/2.html")] :=
  get_article_timeout_skip (fun _ => FetchOutcome.timeout) []
    ("https://www3.nhk.or.jp/a/1.html") [("https://www3.nhk.or.jp/a/2.html")] rfl

def multiClassElem : BodyElem := ⟨[("body-title"), ("important")], ("見出し。")⟩

/-- C8 counterexample: an element carrying class `body-title` together with
a second class is returned by the body-element selection but matches
neither case of the `match` statement, so it is dropped, while uniform
processing keeps it — the two formulations differ on this selected
element. -/
theorem body_match_drops_multiclass_ce :
    selectBodies [multiClassElem] = [multiClassElem]
    ∧ (selectBodies [multiClassElem]).flatMap matchBody = []
    ∧ (selectBodies [multiClassElem]).flatMap uniformBody
        = [convert_punctuation_str (("見出し。"))]
    ∧ (selectBodies [multiClassElem]).flatMap matchBody
        ≠ (selectBodies [multiClassElem]).flatMap uniformBody := by decide

/-- C8 (amended): the multi-branch `match` is behaviourally identical to
uniform punctuation-breaking of every selected body element whenever each
selected element's class list is exactly `["body-title"]` or exactly
`["body-text"]`; a selected element with any additional class is dropped by
the `match` but kept by the uniform processing. -/
theorem body_match_uniform_equiv (els : List BodyElem)
    (h : ∀ e ∈ els, e.cls = [("body-title")] ∨ e.cls = [("body-text")]) :
    (selectBodies els).flatMap matchBody = (selectBodies els).flatMap uniformBody := by
  induction els with
  | nil => rfl
  | cons e rest ih =>
    have he := h e (List.mem_cons_self _ _)
    have hrest := fun x hx => h x (List.mem_cons_of_mem _ hx)
    rcases he with he | he
    · simp [selectBodies, List.filter_cons, he, matchBody, uniformBody] at ih ⊢
      exact ih hrest
    · simp [selectBodies, List.filter_cons, he, matchBody, uniformBody] at ih ⊢
      exact ih hrest

def bodyElemsW : List BodyElem :=
  [⟨[("body-title")], ("見出し。")⟩, ⟨[("body-text")], ("本文、続き。")⟩]

theorem body_match_uniform_equiv_witness :
    (selectBodies bodyElemsW).flatMap matchBody
      = (selectBodies bodyElemsW).flatMap uniformBody :=
  body_match_uniform_equiv bodyElemsW (by decide)

/-! ## Dictionary lemmas for the accumulation loop -/

theorem lookupKey_setKey_self (d : List (String × String)) (k v : String) :
    lookupKey (setKey d k v) k = some v := by
  induction d with
  | nil => simp [setKey, lookupKey, List.find?]
  | cons p rest ih =>
    obtain ⟨k', v'⟩ := p
    by_cases h : k' = k
    · rw [setKey, if_pos h]
      rw [lookupKey, List.find?_cons_of_pos _ (by simp)]
      rfl
    · rw [setKey, if_neg h]
      rw [lookupKey, List.find?_cons_of_neg _ (by simp [h])]
      exact ih

theorem keysOf_setKey (d : List (String × String)) (k v : String) :
    keysOf (setKey d k v) = if k ∈ keysOf d then keysOf d else keysOf d ++ [k] := by
  induction d with
  | nil => simp [setKey, keysOf]
  | cons p rest ih =>
    obtain ⟨k', v'⟩ := p
    by_cases h : k' = k
    · subst h
      simp [setKey, keysOf, List.mem_cons]
    · rw [setKey, if_neg h]
      have hkk : ¬ (k = k') := fun e => h e.symm
      by_cases hm : k ∈ keysOf rest
      · have hm2 : k ∈ keysOf ((k', v') :: rest) := List.mem_cons_of_mem _ hm
        rw [if_pos hm2]
        show k' :: keysOf (setKey rest k v) = k' :: keysOf rest
        rw [ih, if_pos hm]
      · have hm2 : ¬ k ∈ keysOf ((k', v') :: rest) := by
          intro hc
          rcases List.mem_cons.mp hc with he | hc'
          · exact hkk he
          · exact hm hc'
        rw [if_neg hm2]
        show k' :: keysOf (setKey rest k v) = (k' :: keysOf rest) ++ [k]
        rw [ih, if_neg hm, List.cons_append]

theorem keysNodup_setKey {d : List (String × String)}
    (hd : (keysOf d).Nodup) (k v : String) : (keysOf (setKey d k v)).Nodup := by
  rw [keysOf_setKey]
  by_cases hm : k ∈ keysOf d
  · simpa [hm] using hd
  · rw [if_neg hm]
    refine List.Nodup.append hd (List.nodup_singleton k) ?_
    intro a ha hb
    rw [List.mem_singleton] at hb
    subst hb
    exact hm ha

theorem keysNodup_updateDict {d : List (String × String)}
    (hd : (keysOf d).Nodup) (new : List (String × String)) :
    (keysOf (updateDict d new)).Nodup := by
  induction new generalizing d with
  | nil => exact hd
  | cons p rest ih => exact ih (keysNodup_setKey hd p.1 p.2)

theorem articleLoop_append (art : String → FetchOutcome)
    (d : List (String × String)) (l1 l2 : List String) :
    articleLoop art d (l1 ++ l2)
      = match articleLoop art d l1 with
        | Except.ok d' => articleLoop art d' l2
        | Except.error e => Except.error e := by
  induction l1 generalizing d with
  | nil => rfl
  | cons u rest ih =>
    rw [List.cons_append]
    rw [articleLoop]
    rw [articleLoop]
    cases hga : get_article (art u) with
    | error e => rfl
    | ok r => exact ih (updateDict d r)

theorem keysNodup_articleLoop (art : String → FetchOutcome)
    (d0 : List (String × String)) (urls : List String)
    (hd : (keysOf d0).Nodup) {d : List (String × String)}
    (h : articleLoop art d0 urls = Except.ok d) : (keysOf d).Nodup := by
  induction urls generalizing d0 with
  | nil =>
    rw [articleLoop] at h
    cases h
    exact hd
  | cons u rest ih =>
    rw [articleLoop] at h
    cases hga : get_article (art u) with
    | error e => rw [hga] at h; cases h
    | ok r => rw [hga] at h; exact ih _ (keysNodup_updateDict hd r) h

/-- C9: the accumulated records are keyed by newline-stripped title: after
the pipeline loop, the key set is duplicate-free (so at most one record —
and hence at most one output file — per title), and when the last processed
URL yields title `t` with content `c`, the surviving record for `t` is `c`,
overwriting any record an earlier URL stored under the same title. -/
theorem news_dict_title_keyed (art : String → FetchOutcome) (pre : List String)
    (u t c : String) (d : List (String × String))
    (h1 : get_article (art u) = Except.ok [(t, c)])
    (h2 : articleLoop art [] (pre ++ [u]) = Except.ok d) :
    lookupKey d t = some c ∧ (keysOf d).Nodup ∧ (keysOf d).count t ≤ 1 := by
  rw [articleLoop_append] at h2
  cases hp : articleLoop art [] pre with
  | error e => rw [hp] at h2; cases h2
  | ok d1 =>
    rw [hp] at h2
    dsimp only at h2
    rw [articleLoop, h1] at h2
    dsimp only at h2
    rw [articleLoop] at h2
    injection h2 with h2
    subst h2
    have hd1 : (keysOf d1).Nodup :=
      keysNodup_articleLoop art [] pre (by simp [keysOf]) hp
    have hnd : (keysOf (updateDict d1 [(t, c)])).Nodup :=
      keysNodup_updateDict hd1 [(t, c)]
    refine ⟨lookupKey_setKey_self d1 t c, hnd, ?_⟩
    exact List.nodup_iff_count_le_one.mp hnd t

def artW : String → FetchOutcome := fun u =>
  if u = ("https://www3.nhk.or.jp/a/1.html")
  then FetchOutcome.loaded ⟨some ("速報"), [("要約。")], []⟩
  else FetchOutcome.loaded ⟨some ("速報"), [], []⟩

theorem news_dict_title_keyed_witness :
    lookupKey [(("速報"), ("~~タイトル~~\n速報\n~~要約~~\n~~内容~~"))] ("速報")
      = some ("~~タイトル~~\n速報\n~~要約~~\n~~内容~~")
    ∧ (keysOf [(("速報"), ("~~タイトル~~\n速報\n~~要約~~\n~~内容~~"))]).Nodup
    ∧ (keysOf [(("速報"), ("~~タイトル~~\n速報\n~~要約~~\n~~内容~~"))]).count ("速報") ≤ 1 :=
  news_dict_title_keyed artW [("https://www3.nhk.or.jp/a/1.html")]
    ("https://www3.nhk.or.jp/a/2.html") ("速報")
    ("~~タイトル~~\n速報\n~~要約~~\n~~内容~~")
    [(("速報"), ("~~タイトル~~\n速報\n~~要約~~\n~~内容~~"))]
    rfl rfl

/-! ## File writing (`convert_text`, lines 144-162)

The filesystem is modelled as an association list from paths to contents;
`open(path, mode='x')` creates only when the path is absent. -/

def filePath (date : String) (i : Nat) (title : String) : String :=
  OUTPUT_BASE_DIRECTORY ++ date ++ ("/") ++ toString (i + 1) ++ ("_") ++ title ++ (".txt")

/-- The `for index, (title, content) in enumerate(...)` loop of
`convert_text`: exclusive-create each file, skipping (after a printed
notice) any path that already exists. -/
def writeLoop (date : String) :
    List (String × String) → Nat → List (String × String) → List (String × String)
  | fs, _, [] => fs
  | fs, i, (title, content) :: rest =>
    match lookupKey fs (filePath date i title) with
    | some _ => writeLoop date fs (i + 1) rest
    | none => writeLoop date (fs ++ [(filePath date i title, content)]) (i + 1) rest

/-- `convert_text` (lines 144-162) acting on an initial filesystem. -/
def convert_text (date : String) (fs : List (String × String))
    (news : List (String × String)) : List (String × String) :=
  writeLoop date fs 0 news

theorem lookupKey_append_left {fs l : List (String × String)} {p c : String}
    (h : lookupKey fs p = some c) : lookupKey (fs ++ l) p = some c := by
  induction fs with
  | nil => simp [lookupKey] at h
  | cons q rest ih =>
    obtain ⟨k', v'⟩ := q
    by_cases hk : k' = p
    · rw [lookupKey, List.cons_append, List.find?_cons_of_pos _ (by simp [hk])]
      rw [lookupKey, List.find?_cons_of_pos _ (by simp [hk])] at h
      exact h
    · rw [lookupKey, List.cons_append, List.find?_cons_of_neg _ (by simp [hk])]
      rw [lookupKey, List.find?_cons_of_neg _ (by simp [hk])] at h
      exact ih h

theorem lookupKey_writeLoop (date : String) (news : List (String × String))
    (fs : List (String × String)) (i : Nat) (p c : String)
    (h : lookupKey fs p = some c) :
    lookupKey (writeLoop date fs i news) p = some c := by
  induction news generalizing fs i with
  | nil => exact h
  | cons e rest ih =>
    obtain ⟨t, cn⟩ := e
    rw [writeLoop]
    cases hl : lookupKey fs (filePath date i t) with
    | some old => exact ih fs (i + 1) h
    | none => exact ih _ (i + 1) (lookupKey_append_left h)

/-- C6: `convert_text` opens each target in exclusive-create mode: a path
that already exists keeps its prior content through the whole run, and the
colliding entry is skipped non-fatally — the loop simply continues with the
remaining articles, the filesystem unchanged by that entry. -/
theorem convert_text_preserves_existing (date : String)
    (fs news : List (String × String)) (p c : String)
    (h : lookupKey fs p = some c) :
    lookupKey (convert_text date fs news) p = some c
    ∧ (∀ fs' i t cn rest c', lookupKey fs' (filePath date i t) = some c' →
        writeLoop date fs' i ((t, cn) :: rest) = writeLoop date fs' (i + 1) rest) := by
  refine ⟨lookupKey_writeLoop date news fs 0 p c h, ?_⟩
  intro fs' i t cn rest c' hex
  rw [writeLoop, hex]

def fsW : List (String × String) :=
  [((filePath ("20260101") 0 ("既存記事")), ("古い内容"))]

def newsW : List (String × String) :=
  [(("既存記事"), ("新しい内容")), (("別記事"), ("内容B"))]

theorem convert_text_preserves_existing_witness :
    lookupKey (convert_text ("20260101") fsW newsW) (filePath ("20260101") 0 ("既存記事"))
      = some ("古い内容") :=
  (convert_text_preserves_existing ("20260101") fsW newsW
    (filePath ("20260101") 0 ("既存記事")) ("古い内容") rfl).1

/-! ## The run orchestrator (lines 164-196)

The module-level `try/except/finally`.  `driver = webdriver.Remote(...)`
sits inside the `try`: when establishing the session raises, the name
`driver` is never bound, the `except` clause logs the error, and
`driver.quit()` in the `finally` block raises `NameError` instead of
terminating a session. -/

structure RunEnv where
  connect : Except PyErr Unit
  socialFetch : Except PyErr (List Anchor)
  accessFetch : Except PyErr (List Anchor)
  article : String → FetchOutcome

/-- `get_urls` as executed in the run: fetch both rankings (each wait may
time out, which propagates), then filter and aggregate. -/
def get_urls_run (env : RunEnv) : Except PyErr (List String) :=
  match env.socialFetch with
  | Except.error e => Except.error e
  | Except.ok social =>
    match env.accessFetch with
    | Except.error e => Except.error e
    | Except.ok access =>
      match get_urls access social with
      | none => Except.error PyErr.attributeError
      | some r => Except.ok r

/-- The body of the module-level `try` (lines 168-189). -/
def tryBody (env : RunEnv) : Except PyErr (List (String × String)) :=
  match env.connect with
  | Except.error e => Except.error e
  | Except.ok _ =>
    match get_urls_run env with
    | Except.error e => Except.error e
    | Except.ok urls => articleLoop env.article [] urls

/-- Whether the name `driver` got bound during the `try` body. -/
def driverBound (env : RunEnv) : Bool :=
  match env.connect with
  | Except.ok _ => true
  | Except.error _ => false

structure RunResult where
  quitCalled : Bool
  loggedError : Option PyErr
  convertCalled : Bool
  finallyError : Option PyErr
  deriving DecidableEq

/-- The whole module-level `try/except/finally` (lines 168-196): the
`except` clause logs any error, `convert_text` runs only when the body
completed, and the `finally` block calls `driver.quit()` — raising
`NameError` when `driver` was never bound. -/
def mainRun (env : RunEnv) : RunResult :=
  match tryBody env with
  | Except.ok _ =>
    ⟨driverBound env, none, true,
      if driverBound env then none else some PyErr.nameError⟩
  | Except.error e =>
    ⟨driverBound env, some e, false,
      if driverBound env then none else some PyErr.nameError⟩

def envConnectFail : RunEnv :=
  ⟨Except.error PyErr.connectionError, Except.ok [], Except.ok [],
    fun _ => FetchOutcome.timeout⟩

/-- C7 counterexample: when establishing the browser session itself raises,
the `finally` block hits the unbound name `driver` and `driver.quit()` is
never executed, so the claim's "every exit path, including during
browser-session establishment" fails. -/
theorem quit_skipped_on_connect_failure_ce :
    (mainRun envConnectFail).quitCalled = false
    ∧ (mainRun envConnectFail).finallyError = some PyErr.nameError :=
  ⟨rfl, rfl⟩

/-- C7 (amended): on every exit path reached after the browser session was
successfully established — normal completion, ranking-page wait timeout,
or any other pipeline exception — `driver.quit()` is executed before the
run ends (and the `finally` block raises nothing). -/
theorem quit_called_after_session_established (env : RunEnv)
    (h : env.connect = Except.ok ()) :
    (mainRun env).quitCalled = true ∧ (mainRun env).finallyError = none := by
  have hb : driverBound env = true := by rw [driverBound.eq_def, h]
  cases ht : tryBody env with
  | ok news => simp [mainRun, ht, hb]
  | error e => simp [mainRun, ht, hb]

def envRankingTimeout : RunEnv :=
  ⟨Except.ok (), Except.error PyErr.timeoutError, Except.ok [],
    fun _ => FetchOutcome.timeout⟩

theorem quit_called_after_session_established_witness :
    (mainRun envRankingTimeout).quitCalled = true
    ∧ (mainRun envRankingTimeout).finallyError = none :=
  quit_called_after_session_established envRankingTimeout rfl

/-! ## C10: an anchor without an `em` descendant -/

theorem filterAnchors_none {l : List Anchor} {a : Anchor}
    (ha : a ∈ l) (hem : a.em = none) : filterAnchors l = none := by
  induction l with
  | nil => cases ha
  | cons x rest ih =>
    rcases List.mem_cons.mp ha with he | hm
    · subst he
      have hone : is_include_not_interest a = none := by
        rw [is_include_not_interest, hem]
        rfl
      rw [filterAnchors, hone]
    · rw [filterAnchors]
      cases hx : is_include_not_interest x with
      | none => rfl
      | some b => rw [ih hm]; rfl

theorem get_urls_missing_em {access social : List Anchor} {a : Anchor}
    (ha : a ∈ access ∨ a ∈ social) (hem : a.em = none) :
    get_urls access social = none := by
  rcases ha with ha | ha
  · rw [get_urls, filterAnchors_none ha hem]
  · rw [get_urls, filterAnchors_none ha hem]
    cases filterAnchors access <;> rfl

/-- C10: an anchor lacking an `em` element makes `is_include_not_interest`
raise (`none` in the model); the error is not caught inside `get_urls`, so
the whole run aborts — the top-level handler logs the error, no articles
are converted, and the anchor is not merely skipped. -/
theorem missing_em_aborts_run (env : RunEnv) (access social : List Anchor)
    (a : Anchor)
    (hconn : env.connect = Except.ok ())
    (hsoc : env.socialFetch = Except.ok social)
    (hacc : env.accessFetch = Except.ok access)
    (ha : a ∈ access ∨ a ∈ social) (hem : a.em = none) :
    is_include_not_interest a = none
    ∧ get_urls access social = none
    ∧ mainRun env = ⟨true, some PyErr.attributeError, false, none⟩ := by
  have h1 : is_include_not_interest a = none := by
    rw [is_include_not_interest, hem]
    rfl
  have h2 : get_urls access social = none := get_urls_missing_em ha hem
  have hrun : get_urls_run env = Except.error PyErr.attributeError := by
    rw [get_urls_run, hsoc]
    dsimp only
    rw [hacc]
    dsimp only
    rw [h2]
  have hbody : tryBody env = Except.error PyErr.attributeError := by
    rw [tryBody, hconn]
    dsimp only
    rw [hrun]
  have hb : driverBound env = true := by rw [driverBound.eq_def, hconn]
  refine ⟨h1, h2, ?_⟩
  simp [mainRun, hbody, hb]

def anchorNoEm : Anchor := ⟨none, ("/a/3.html")⟩

def envMissingEm : RunEnv :=
  ⟨Except.ok (), Except.ok [], Except.ok [anchorNoEm],
    fun _ => FetchOutcome.timeout⟩

theorem missing_em_aborts_run_witness :
    is_include_not_interest anchorNoEm = none
    ∧ get_urls [anchorNoEm] [] = none
    ∧ mainRun envMissingEm = ⟨true, some PyErr.attributeError, false, none⟩ :=
  missing_em_aborts_run envMissingEm [anchorNoEm] [] anchorNoEm
    rfl rfl rfl (Or.inl (List.mem_cons_self _ _)) rfl

end NHKNews
